import Mathlib

/-!
Verification development for the QUDA blas reduction engine
(`lib/reduce_quda.cu`).

Fields are modelled over exact rationals: a `double2` element of a
spinor field is a pair of rationals, and a field is a list of such
elements.  The generic reduction dispatcher (`reduceCuda`, whose body
lives in the `reduce_core.h` header external to the translation) is
modelled from the spec as a sequential loop over the five operand
slots, writing back exactly the operand slots whose static write flag
is set.  The per-functor arithmetic is translated directly from the
functor bodies in `reduce_quda.cu`.
-/

namespace QudaBlas

/-- A `double2` element: one complex/paired component of a field. -/
abbrev double2 : Type := ℚ × ℚ

/-- A `double3` reduction result. -/
structure double3 where
  x : ℚ
  y : ℚ
  z : ℚ
  deriving DecidableEq, Repr

/-- A `double4` reduction result. -/
structure double4 where
  x : ℚ
  y : ℚ
  z : ℚ
  w : ℚ
  deriving DecidableEq, Repr

/-- Componentwise scalar multiplication on `double2` (the CUDA
`a.x*x` vector-scalar product). -/
def d2smul (c : ℚ) (a : double2) : double2 := (c * a.1, c * a.2)

/-- Componentwise addition on `double2`. -/
def d2add (a b : double2) : double2 := (a.1 + b.1, a.2 + b.2)

/-- Componentwise addition on `double3`, used by the cross-process
sum combine. -/
def d3add (a b : double3) : double3 := ⟨a.x + b.x, a.y + b.y, a.z + b.z⟩

/-- From `norm1_(const double2 &a)`: the L1 contribution of one
element, `fabs(a.x) + fabs(a.y)`. -/
def norm1_ (a : double2) : ℚ := |a.1| + |a.2|

/-- From `norm2_(ReduceType &sum, const double2 &a)`:
`sum += a.x*a.x; sum += a.y*a.y`. -/
def norm2_ (sum : ℚ) (a : double2) : ℚ := sum + a.1 * a.1 + a.2 * a.2

/-- From `dot_(ReduceType &sum, const double2 &a, const double2 &b)`:
`sum += a.x*b.x; sum += a.y*b.y`. -/
def dot_ (sum : ℚ) (a b : double2) : ℚ := sum + a.1 * b.1 + a.2 * b.2

/-- From `cdot_(ReduceType &sum, const double2 &a, const double2 &b)`:
`sum.x += a.x*b.x; sum.x += a.y*b.y; sum.y += a.x*b.y; sum.y -= a.y*b.x`. -/
def cdot_ (sum : ℚ × ℚ) (a b : double2) : ℚ × ℚ :=
  (sum.1 + a.1 * b.1 + a.2 * b.2, sum.2 + a.1 * b.2 - a.2 * b.1)

/-- Complex conjugation on the packed `double2` accumulator. -/
def conj2 (p : ℚ × ℚ) : ℚ × ℚ := (p.1, -p.2)

/-- Result of one functor application: the updated running sum and
the (possibly updated) five operand elements. -/
structure OpOut (R : Type) where
  sum : R
  x : double2
  y : double2
  z : double2
  w : double2
  v : double2

/-- A reduction functor: the elementwise `operator()` of a
`ReduceFunctor` subtype, acting on the running sum and the five
operand elements. -/
structure RFunctor (R : Type) where
  op : R → double2 → double2 → double2 → double2 → double2 → OpOut R

/-- Result of a full reduction call: the reduced value and the five
operand fields after the call. -/
@[ext]
structure ReduceOut (R : Type) where
  sum : R
  X : List double2
  Y : List double2
  Z : List double2
  W : List double2
  V : List double2
  deriving Repr

/-- Modelled from the spec: the generic reduction dispatcher
(`reduceCuda` of `reduce_core.h`, which is external to the translated
sources).  It loops over the elements of the five operand fields,
applies the functor's elementwise update, accumulates the running
sum, and writes back exactly the operand slots whose static write
flag (`wx,wy,wz,ww,wv`, the five 0/1 template arguments at each
dispatch site) is set; unwritten slots keep their input contents. -/
def reduceCuda {R : Type} (f : RFunctor R) (wx wy wz ww wv : Bool) :
    R → List double2 → List double2 → List double2 → List double2 → List double2 →
      ReduceOut R
  | sum, [], ys, zs, ws, vs => ⟨sum, [], ys, zs, ws, vs⟩
  | sum, xe :: xs, ye :: ys, ze :: zs, we :: ws, ve :: vs =>
      let o := f.op sum xe ye ze we ve
      let rest := reduceCuda f wx wy wz ww wv o.sum xs ys zs ws vs
      ⟨rest.sum,
        (if wx then o.x else xe) :: rest.X,
        (if wy then o.y else ye) :: rest.Y,
        (if wz then o.z else ze) :: rest.Z,
        (if ww then o.w else we) :: rest.W,
        (if wv then o.v else ve) :: rest.V⟩
  | sum, xs, ys, zs, ws, vs => ⟨sum, xs, ys, zs, ws, vs⟩

/-- The `Norm1` functor: `sum += norm1_(x)`; no operand is modified. -/
def Norm1 : RFunctor ℚ :=
  ⟨fun sum x y z w v => ⟨sum + norm1_ x, x, y, z, w, v⟩⟩

/-- The `Norm2` functor: `norm2_(sum, x)`; no operand is modified. -/
def Norm2 : RFunctor ℚ :=
  ⟨fun sum x y z w v => ⟨norm2_ sum x, x, y, z, w, v⟩⟩

/-- The `Dot` functor: `dot_(sum, x, y)`; no operand is modified. -/
def Dot : RFunctor ℚ :=
  ⟨fun sum x y z w v => ⟨dot_ sum x y, x, y, z, w, v⟩⟩

/-- The `Cdot` functor: `cdot_(sum, x, y)`; no operand is modified. -/
def Cdot : RFunctor (ℚ × ℚ) :=
  ⟨fun sum x y z w v => ⟨cdot_ sum x y, x, y, z, w, v⟩⟩

/-- The `axpbyzNorm2` functor: `z = a.x*x + b.x*y; norm2_(sum, z)`. -/
def axpbyzNorm2 (a b : ℚ) : RFunctor ℚ :=
  ⟨fun sum x y z w v =>
    let z := d2add (d2smul a x) (d2smul b y)
    ⟨norm2_ sum z, x, y, z, w, v⟩⟩

/-- The `quadrupleCGReduction_` functor:
`norm2_(sum.x, x); norm2_(sum.y, y); dot_(sum.z, y, z); norm2_(sum.w, w)`. -/
def quadrupleCGReduction_ : RFunctor double4 :=
  ⟨fun sum x y z w v =>
    ⟨⟨norm2_ sum.x x, norm2_ sum.y y, dot_ sum.z y z, norm2_ sum.w w⟩, x, y, z, w, v⟩⟩

/-- Dispatch site of `norm1(x)`: functor `Norm1`, write flags
`0,0,0,0,0`, operand tuple `(y,y,y,y,y)` where `y` aliases `x`. -/
def norm1Call (x : List double2) : ReduceOut ℚ :=
  reduceCuda Norm1 false false false false false 0 x x x x x

/-- The scalar returned by `norm1(x)`. -/
def norm1 (x : List double2) : ℚ := (norm1Call x).sum

/-- Dispatch site of `norm2(x)`: functor `Norm2`, write flags
`0,0,0,0,0`, operand tuple `(y,y,y,y,y)` where `y` aliases `x`. -/
def norm2Call (x : List double2) : ReduceOut ℚ :=
  reduceCuda Norm2 false false false false false 0 x x x x x

/-- The scalar returned by `norm2(x)`. -/
def norm2 (x : List double2) : ℚ := (norm2Call x).sum

/-- Dispatch site of `reDotProduct(x, y)`: functor `Dot`, write flags
`0,0,0,0,0`, operand tuple `(x,y,x,x,x)`. -/
def reDotProductCall (x y : List double2) : ReduceOut ℚ :=
  reduceCuda Dot false false false false false 0 x y x x x

/-- The scalar returned by `reDotProduct(x, y)`. -/
def reDotProduct (x y : List double2) : ℚ := (reDotProductCall x y).sum

/-- Dispatch site of `cDotProduct(x, y)`: functor `Cdot`, write flags
`0,0,0,0,0`, operand tuple `(x,y,x,x,x)`. -/
def cDotProductCall (x y : List double2) : ReduceOut (ℚ × ℚ) :=
  reduceCuda Cdot false false false false false (0, 0) x y x x x

/-- The complex value returned by `cDotProduct(x, y)`. -/
def cDotProduct (x y : List double2) : ℚ × ℚ := (cDotProductCall x y).sum

/-- Dispatch site of `axpbyzNorm(a, x, b, y, z)`: functor
`axpbyzNorm2`, write flags `0,0,1,0,0`, operand tuple `(x,y,z,x,x)`.
The C++ function returns the scalar and mutates `z` in place; here
the full post-call operand state is returned alongside the sum. -/
def axpbyzNorm (a : ℚ) (x : List double2) (b : ℚ) (y : List double2)
    (z : List double2) : ReduceOut ℚ :=
  reduceCuda (axpbyzNorm2 a b) false false true false false 0 x y z x x

/-- Dispatch site of `quadrupleCGReduction(x, y, z)`: functor
`quadrupleCGReduction_`, write flags `0,0,0,0,0`, operand tuple
`(x,y,z,x,x)` — the `w` and `v` slots are bound to `x`. -/
def quadrupleCGReduction (x y z : List double2) : double4 :=
  (reduceCuda quadrupleCGReduction_ false false false false false
    ⟨0, 0, 0, 0⟩ x y z x x).sum

/-- An independent elementwise computation of `a*x[i] + b*y[i]`,
stated directly with `List.zipWith`; used to check the contents of
`z` after `axpbyzNorm`. -/
def axpbyzElemwise (a b : ℚ) (x y : List double2) : List double2 :=
  List.zipWith (fun xe ye => d2add (d2smul a xe) (d2smul b ye)) x y

/-! ### The heavy-quark residual-norm family

These kernels are instantiated with `siteUnroll = true`: the
elementwise loop runs per lattice site over that site's `M` packed
components, with the `pre()` hook zeroing the auxiliary accumulator
before each site's component loop and the `post()` hook folding the
auxiliary accumulator into the running sum after it.  A field is
modelled with its site structure made explicit. -/

/-- A color-spinor field as seen by the heavy-quark kernels: its
color component count (`Ncolor()`) and its per-site packed data.
`Volume()` is the local site count. -/
structure HQField where
  ncolor : ℕ
  sites : List (List double2)
  deriving DecidableEq, Repr

/-- The local volume `x.Volume()`: the number of lattice sites. -/
def HQField.Volume (f : HQField) : ℕ := f.sites.length

/-- One site's auxiliary accumulator for `HeavyQuarkResidualNorm_`:
starting from the `pre()` state `aux.x = 0; aux.y = 0`, the
`operator()` body `norm2_(aux.x, x); norm2_(aux.y, y)` is applied to
each packed component pair of the site. -/
def hqAux (xs ys : List double2) : ℚ × ℚ :=
  (xs.zip ys).foldl (fun aux p => (norm2_ aux.1 p.1, norm2_ aux.2 p.2)) (0, 0)

/-- One site's auxiliary accumulator for `xpyHeavyQuarkResidualNorm_`:
starting from the `pre()` state, the `operator()` body
`norm2_(aux.x, x + y); norm2_(aux.y, z)` is applied to each packed
component triple of the site. -/
def xpyHqAux (xs ys zs : List double2) : ℚ × ℚ :=
  ((xs.zip ys).zip zs).foldl
    (fun aux p => (norm2_ aux.1 (d2add p.1.1 p.1.2), norm2_ aux.2 p.2)) (0, 0)

/-- The shared `post()` hook of both heavy-quark functors:
`sum.x += aux.x; sum.y += aux.y;
 sum.z += (aux.x > 0.0) ? (aux.y / aux.x) : 1.0`. -/
def hqPost (sum : double3) (aux : ℚ × ℚ) : double3 :=
  ⟨sum.x + aux.1, sum.y + aux.2,
    sum.z + (if 0 < aux.1 then aux.2 / aux.1 else 1)⟩

/-- One site's contribution in `HeavyQuarkResidualNorm_`: `pre()`,
then the component loop, then `post()`. -/
def HeavyQuarkResidualNormSite (sum : double3) (xs ys : List double2) : double3 :=
  hqPost sum (hqAux xs ys)

/-- One site's contribution in `xpyHeavyQuarkResidualNorm_`. -/
def xpyHeavyQuarkResidualNormSite (sum : double3) (xs ys zs : List double2) :
    double3 :=
  hqPost sum (xpyHqAux xs ys zs)

/-- The single-process reduction of `HeavyQuarkResidualNorm_` over
the local fields `x` (solution) and `r` (residual): the per-site
contributions are accumulated over all sites. -/
def hqLocalReduce (x r : HQField) : double3 :=
  (x.sites.zip r.sites).foldl
    (fun sum p => HeavyQuarkResidualNormSite sum p.1 p.2) ⟨0, 0, 0⟩

/-- The single-process reduction of `xpyHeavyQuarkResidualNorm_`. -/
def xpyHqLocalReduce (x y r : HQField) : double3 :=
  ((x.sites.zip y.sites).zip r.sites).foldl
    (fun sum p => xpyHeavyQuarkResidualNormSite sum p.1.1 p.1.2 p.2) ⟨0, 0, 0⟩

/-- Modelled from the spec: the process count `comm_size()`.  The
distributed state is modelled as this rank's fields plus a list
`rest` holding the other ranks' fields, so the process count is one
more than the length of `rest`. -/
def comm_size {α : Type} (rest : List α) : ℕ := rest.length + 1

/-- Modelled from the spec: the cross-process sum combine applied to
the local reduction results inside `reduceCuda` before it returns. -/
def commAllreduce (locals : List double3) : double3 :=
  locals.foldl d3add ⟨0, 0, 0⟩

/-- From `HeavyQuarkResidualNorm(x, r)`: if `x.Ncolor() != 3` the
all-zero triple is returned (non-fatally — the return type carries no
error); otherwise the local reductions of all ranks are combined by
the cross-process sum, and then `rtn.z /= (x.Volume()*comm_size())`. -/
def HeavyQuarkResidualNorm (x r : HQField) (rest : List (HQField × HQField)) :
    double3 :=
  if x.ncolor ≠ 3 then ⟨0, 0, 0⟩
  else
    let rtn := commAllreduce
      (hqLocalReduce x r :: rest.map fun p => hqLocalReduce p.1 p.2)
    ⟨rtn.x, rtn.y, rtn.z / ((x.Volume : ℚ) * (comm_size rest : ℚ))⟩

/-- From `xpyHeavyQuarkResidualNorm(x, y, r)`: same shape as
`HeavyQuarkResidualNorm`, with the solution formed as `x + y`. -/
def xpyHeavyQuarkResidualNorm (x y r : HQField)
    (rest : List (HQField × HQField × HQField)) : double3 :=
  if x.ncolor ≠ 3 then ⟨0, 0, 0⟩
  else
    let rtn := commAllreduce
      (xpyHqLocalReduce x y r :: rest.map fun p => xpyHqLocalReduce p.1 p.2.1 p.2.2)
    ⟨rtn.x, rtn.y, rtn.z / ((x.Volume : ℚ) * (comm_size rest : ℚ))⟩

/-! ### The reduction buffer manager

The static pointers `d_reduce`, `h_reduce`, `hd_reduce`, the
completion event and the `fast_reduce_enabled` flag are modelled as
an explicit state record.  Allocation is modelled by a fresh-id
counter (the external allocator is assumed to succeed; its own
out-of-memory abort is outside the translated code).  The functions
return `Except String _` so that a fatal `errorQuda`-style abort is
representable as `.error`; the translated bodies of `initReduce` and
`endReduce` contain no such abort. -/

/-- The buffer manager's process-wide state. -/
structure ReduceState where
  alloc : ℕ
  d_reduce : Option ℕ
  h_reduce : Option ℕ
  hd_reduce : Option ℕ
  eventLive : Bool
  fast : Bool
  deriving DecidableEq, Repr

/-- The pristine state before any `initReduce`: all handles null. -/
def initialReduceState : ReduceState :=
  ⟨0, none, none, none, false, false⟩

/-- From `initReduce()`.  `canMap` stands for the condition
"64-bit host and `deviceProp.canMapHostMemory`"; `fastEnv` for
`QUDA_ENABLE_FAST_REDUCE == "1"`.  The device buffer is allocated
only if `d_reduce` is null, the host buffer only if `h_reduce` is
null (in the mapped case `hd_reduce` becomes the device alias of the
host buffer, otherwise it aliases `d_reduce`); the event is
(re)created unconditionally, and the fast-reduce flag is set — never
cleared — from the environment toggle. -/
def initReduce (canMap fastEnv : Bool) (s : ReduceState) :
    Except String ReduceState :=
  let s₁ := if s.d_reduce.isNone then
      { s with d_reduce := some s.alloc, alloc := s.alloc + 1 }
    else s
  let s₂ := if s₁.h_reduce.isNone then
      if canMap then
        { s₁ with h_reduce := some s₁.alloc, hd_reduce := some s₁.alloc,
                  alloc := s₁.alloc + 1 }
      else
        { s₁ with h_reduce := some s₁.alloc, hd_reduce := s₁.d_reduce,
                  alloc := s₁.alloc + 1 }
    else s₁
  Except.ok { s₂ with eventLive := true, fast := s₂.fast || fastEnv }

/-- From `endReduce()`: each buffer is freed (and its handle nulled)
only if its handle is non-null; `hd_reduce` is nulled and the event
destroyed unconditionally. -/
def endReduce (s : ReduceState) : ReduceState :=
  let s₁ := if s.d_reduce.isSome then { s with d_reduce := none } else s
  let s₂ := if s₁.h_reduce.isSome then { s₁ with h_reduce := none } else s₁
  { s₂ with hd_reduce := none, eventLive := false }

/-- Whether an `Except`-valued call completed without a fatal error. -/
def exceptIsOk {α : Type} : Except String α → Bool
  | Except.ok _ => true
  | Except.error _ => false

/-- The restart round-trip `init(); teardown(); init(); teardown();`
from the pristine state. -/
def restartSeq (canMap fastEnv : Bool) : Except String ReduceState :=
  (((initReduce canMap fastEnv initialReduceState).map endReduce).bind
    (initReduce canMap fastEnv)).map endReduce

/-! ## Helper lemmas about the generic dispatcher -/

/-- A slot whose write flag is clear keeps its input contents: the
`X` slot. -/
theorem reduceCuda_X_frame {R : Type} (f : RFunctor R) (wy wz ww wv : Bool)
    (xs : List double2) : ∀ (sum : R) (ys zs ws vs : List double2),
    (reduceCuda f false wy wz ww wv sum xs ys zs ws vs).X = xs := by
  induction xs with
  | nil => intro sum ys zs ws vs; simp [reduceCuda]
  | cons xe xs ih =>
    intro sum ys zs ws vs
    cases ys with
    | nil => simp [reduceCuda]
    | cons ye ys =>
      cases zs with
      | nil => simp [reduceCuda]
      | cons ze zs =>
        cases ws with
        | nil => simp [reduceCuda]
        | cons we ws =>
          cases vs with
          | nil => simp [reduceCuda]
          | cons ve vs => simp [reduceCuda, ih]

/-- A slot whose write flag is clear keeps its input contents: the
`Y` slot. -/
theorem reduceCuda_Y_frame {R : Type} (f : RFunctor R) (wx wz ww wv : Bool)
    (xs : List double2) : ∀ (sum : R) (ys zs ws vs : List double2),
    (reduceCuda f wx false wz ww wv sum xs ys zs ws vs).Y = ys := by
  induction xs with
  | nil => intro sum ys zs ws vs; simp [reduceCuda]
  | cons xe xs ih =>
    intro sum ys zs ws vs
    cases ys with
    | nil => simp [reduceCuda]
    | cons ye ys =>
      cases zs with
      | nil => simp [reduceCuda]
      | cons ze zs =>
        cases ws with
        | nil => simp [reduceCuda]
        | cons we ws =>
          cases vs with
          | nil => simp [reduceCuda]
          | cons ve vs => simp [reduceCuda, ih]

/-- A slot whose write flag is clear keeps its input contents: the
`Z` slot. -/
theorem reduceCuda_Z_frame {R : Type} (f : RFunctor R) (wx wy ww wv : Bool)
    (xs : List double2) : ∀ (sum : R) (ys zs ws vs : List double2),
    (reduceCuda f wx wy false ww wv sum xs ys zs ws vs).Z = zs := by
  induction xs with
  | nil => intro sum ys zs ws vs; simp [reduceCuda]
  | cons xe xs ih =>
    intro sum ys zs ws vs
    cases ys with
    | nil => simp [reduceCuda]
    | cons ye ys =>
      cases zs with
      | nil => simp [reduceCuda]
      | cons ze zs =>
        cases ws with
        | nil => simp [reduceCuda]
        | cons we ws =>
          cases vs with
          | nil => simp [reduceCuda]
          | cons ve vs => simp [reduceCuda, ih]

/-- A slot whose write flag is clear keeps its input contents: the
`W` slot. -/
theorem reduceCuda_W_frame {R : Type} (f : RFunctor R) (wx wy wz wv : Bool)
    (xs : List double2) : ∀ (sum : R) (ys zs ws vs : List double2),
    (reduceCuda f wx wy wz false wv sum xs ys zs ws vs).W = ws := by
  induction xs with
  | nil => intro sum ys zs ws vs; simp [reduceCuda]
  | cons xe xs ih =>
    intro sum ys zs ws vs
    cases ys with
    | nil => simp [reduceCuda]
    | cons ye ys =>
      cases zs with
      | nil => simp [reduceCuda]
      | cons ze zs =>
        cases ws with
        | nil => simp [reduceCuda]
        | cons we ws =>
          cases vs with
          | nil => simp [reduceCuda]
          | cons ve vs => simp [reduceCuda, ih]

/-- A slot whose write flag is clear keeps its input contents: the
`V` slot. -/
theorem reduceCuda_V_frame {R : Type} (f : RFunctor R) (wx wy wz ww : Bool)
    (xs : List double2) : ∀ (sum : R) (ys zs ws vs : List double2),
    (reduceCuda f wx wy wz ww false sum xs ys zs ws vs).V = vs := by
  induction xs with
  | nil => intro sum ys zs ws vs; simp [reduceCuda]
  | cons xe xs ih =>
    intro sum ys zs ws vs
    cases ys with
    | nil => simp [reduceCuda]
    | cons ye ys =>
      cases zs with
      | nil => simp [reduceCuda]
      | cons ze zs =>
        cases ws with
        | nil => simp [reduceCuda]
        | cons we ws =>
          cases vs with
          | nil => simp [reduceCuda]
          | cons ve vs => simp [reduceCuda, ih]

/-- The `Norm2` reduction is the fold of `norm2_` over the field. -/
theorem norm2_sum_foldl (xs : List double2) : ∀ (s : ℚ),
    (reduceCuda Norm2 false false false false false s xs xs xs xs xs).sum
      = xs.foldl norm2_ s := by
  induction xs with
  | nil => intro s; simp [reduceCuda]
  | cons xe xs ih => intro s; exact ih (norm2_ s xe)

/-- The `Dot` reduction is the fold of `dot_` over the zipped pair
of fields (the loop stops at the shorter operand, as does `zip`). -/
theorem dot_sum_foldl (xs : List double2) : ∀ (ys : List double2) (s : ℚ),
    (reduceCuda Dot false false false false false s xs ys xs xs xs).sum
      = (xs.zip ys).foldl (fun s p => dot_ s p.1 p.2) s := by
  induction xs with
  | nil => intro ys s; simp [reduceCuda]
  | cons xe xs ih =>
    intro ys s
    cases ys with
    | nil => simp [reduceCuda]
    | cons ye ys => exact ih ys (dot_ s xe ye)

/-- One `cdot_` step on swapped arguments produces the conjugate of
the original step, provided the running sums are conjugate. -/
theorem cdot_step_conj (s : ℚ × ℚ) (a b : double2) :
    cdot_ (conj2 s) a b = conj2 (cdot_ s b a) := by
  simp only [cdot_, conj2, Prod.mk.injEq]
  constructor <;> ring

/-- The `Cdot` reduction on swapped operands accumulates the complex
conjugate, for conjugate starting sums. -/
theorem cdot_conj_aux (xs : List double2) : ∀ (ys : List double2) (s : ℚ × ℚ),
    (reduceCuda Cdot false false false false false (conj2 s) xs ys xs xs xs).sum
      = conj2 (reduceCuda Cdot false false false false false s ys xs ys ys ys).sum := by
  induction xs with
  | nil => intro ys s; cases ys <;> simp [reduceCuda]
  | cons xe xs ih =>
    intro ys s
    cases ys with
    | nil => simp [reduceCuda]
    | cons ye ys =>
      have h1 : (reduceCuda Cdot false false false false false (conj2 s)
            (xe :: xs) (ye :: ys) (xe :: xs) (xe :: xs) (xe :: xs)).sum
          = (reduceCuda Cdot false false false false false
              (cdot_ (conj2 s) xe ye) xs ys xs xs xs).sum := rfl
      have h2 : (reduceCuda Cdot false false false false false s
            (ye :: ys) (xe :: xs) (ye :: ys) (ye :: ys) (ye :: ys)).sum
          = (reduceCuda Cdot false false false false false
              (cdot_ s ye xe) ys xs ys ys ys).sum := rfl
      rw [h1, h2, cdot_step_conj s xe ye]
      exact ih ys (cdot_ s ye xe)

/-- The `Z` slot written by `axpbyzNorm` holds the elementwise
`a*x + b*y`, and the accumulated sum is the fold of `norm2_` over
those written elements. -/
theorem axpbyz_Z_sum (a b : ℚ) (xs : List double2) :
    ∀ (ys zs : List double2) (s : ℚ),
    xs.length = ys.length → ys.length = zs.length →
    (reduceCuda (axpbyzNorm2 a b) false false true false false s xs ys zs xs xs).Z
        = axpbyzElemwise a b xs ys ∧
    (reduceCuda (axpbyzNorm2 a b) false false true false false s xs ys zs xs xs).sum
        = (axpbyzElemwise a b xs ys).foldl norm2_ s := by
  induction xs with
  | nil =>
    intro ys zs s hxy hyz
    have hy : ys = [] := List.length_eq_zero.mp hxy.symm
    subst hy
    have hz : zs = [] := List.length_eq_zero.mp hyz.symm
    subst hz
    simp [reduceCuda, axpbyzElemwise]
  | cons xe xs ih =>
    intro ys zs s hxy hyz
    cases ys with
    | nil => simp at hxy
    | cons ye ys =>
      cases zs with
      | nil => simp at hyz
      | cons ze zs =>
        have hxy' : xs.length = ys.length := by simpa using hxy
        have hyz' : ys.length = zs.length := by simpa using hyz
        have h := ih ys zs (norm2_ s (d2add (d2smul a xe) (d2smul b ye))) hxy' hyz'
        constructor
        · show (d2add (d2smul a xe) (d2smul b ye))
              :: (reduceCuda (axpbyzNorm2 a b) false false true false false
                  (norm2_ s (d2add (d2smul a xe) (d2smul b ye))) xs ys zs xs xs).Z
            = axpbyzElemwise a b (xe :: xs) (ye :: ys)
          rw [h.1]
          rfl
        · show (reduceCuda (axpbyzNorm2 a b) false false true false false
              (norm2_ s (d2add (d2smul a xe) (d2smul b ye))) xs ys zs xs xs).sum
            = (axpbyzElemwise a b (xe :: xs) (ye :: ys)).foldl norm2_ s
          rw [h.2]
          rfl

/-- The `quadrupleCGReduction_` reduction computes its four
components as four independent folds over the operand slots. -/
theorem quad_sum_foldl (xs : List double2) :
    ∀ (ys zs : List double2) (sx sy sz sw : ℚ),
    xs.length = ys.length → ys.length = zs.length →
    (reduceCuda quadrupleCGReduction_ false false false false false
        ⟨sx, sy, sz, sw⟩ xs ys zs xs xs).sum
      = ⟨xs.foldl norm2_ sx, ys.foldl norm2_ sy,
         (ys.zip zs).foldl (fun s p => dot_ s p.1 p.2) sz, xs.foldl norm2_ sw⟩ := by
  induction xs with
  | nil =>
    intro ys zs sx sy sz sw hxy hyz
    have hy : ys = [] := List.length_eq_zero.mp hxy.symm
    subst hy
    have hz : zs = [] := List.length_eq_zero.mp hyz.symm
    subst hz
    simp [reduceCuda]
  | cons xe xs ih =>
    intro ys zs sx sy sz sw hxy hyz
    cases ys with
    | nil => simp at hxy
    | cons ye ys =>
      cases zs with
      | nil => simp at hyz
      | cons ze zs =>
        have hxy' : xs.length = ys.length := by simpa using hxy
        have hyz' : ys.length = zs.length := by simpa using hyz
        exact ih ys zs (norm2_ sx xe) (norm2_ sy ye) (dot_ sz ye ze)
          (norm2_ sw xe) hxy' hyz'

/-- The cross-process combine, componentwise: folding `d3add` sums
each component of the locals independently. -/
theorem d3add_foldl (l : List double3) : ∀ (init : double3),
    l.foldl d3add init
      = ⟨init.x + (l.map double3.x).sum, init.y + (l.map double3.y).sum,
         init.z + (l.map double3.z).sum⟩ := by
  induction l with
  | nil => intro init; simp
  | cons a l ih =>
    intro init
    rw [List.foldl_cons, ih (d3add init a)]
    simp only [d3add, List.map_cons, List.sum_cons, double3.mk.injEq]
    refine ⟨?_, ?_, ?_⟩ <;> ring

/-- Folding the per-component `norm2_` accumulation never decreases
the first accumulator component (it only adds squares). -/
theorem le_foldl_norm2_fst {β : Type} (g h2 : β → double2) (l : List β) :
    ∀ (aux : ℚ × ℚ),
    aux.1 ≤ (l.foldl
        (fun aux p => (norm2_ aux.1 (g p), norm2_ aux.2 (h2 p))) aux).1 := by
  induction l with
  | nil => intro aux; exact le_refl _
  | cons p l ih =>
    intro aux
    refine le_trans ?_ (ih (norm2_ aux.1 (g p), norm2_ aux.2 (h2 p)))
    show aux.1 ≤ aux.1 + (g p).1 * (g p).1 + (g p).2 * (g p).2
    nlinarith [mul_self_nonneg (g p).1, mul_self_nonneg (g p).2]

/-- The `Norm2` and `Dot` accumulations agree when both operands are
the same field: per element, `dot_(sum, a, a)` is exactly
`norm2_(sum, a)`. -/
theorem norm2_eq_reDot_aux (xs : List double2) : ∀ (s : ℚ),
    (reduceCuda Norm2 false false false false false s xs xs xs xs xs).sum
      = (reduceCuda Dot false false false false false s xs xs xs xs xs).sum := by
  induction xs with
  | nil => intro s; rfl
  | cons xe xs ih => intro s; exact ih (norm2_ s xe)

/-- C3: for every field `x`, `norm2(x)` equals `reDotProduct(x, x)`:
the `Norm2` functor accumulates the same per-element sum of squares
as the `Dot` functor applied to the pair `(x, x)`, so the two public
entry points return equal values, exactly, over the embedding's
arithmetic. -/
theorem norm2_eq_reDotProduct (x : List double2) :
    norm2 x = reDotProduct x x :=
  norm2_eq_reDot_aux x 0

/-- C4: `cDotProduct` satisfies conjugate symmetry:
`cDotProduct(x, y) = conj(cDotProduct(y, x))` — the accumulated real
part is symmetric and the imaginary part antisymmetric under
exchange of the two operands. -/
theorem cDotProduct_conj_symm (x y : List double2) :
    cDotProduct x y = conj2 (cDotProduct y x) := by
  have h := cdot_conj_aux x y ((0 : ℚ), (0 : ℚ))
  have h0 : conj2 ((0 : ℚ), (0 : ℚ)) = ((0 : ℚ), (0 : ℚ)) := by
    simp [conj2]
  rw [h0] at h
  exact h

/-- C9: the pure reductions `norm1`, `norm2`, `reDotProduct` and
`cDotProduct` have elementwise effect "none".  Their dispatch sites
(`norm1Call`, `norm2Call`, `reDotProductCall`, `cDotProductCall`)
pass all five write flags as `0`, and after the call every operand
slot holds exactly its input contents, the returned scalar being the
only output. -/
theorem pure_reductions_frame (x y : List double2) :
    norm1Call x = ⟨norm1 x, x, x, x, x, x⟩ ∧
    norm2Call x = ⟨norm2 x, x, x, x, x, x⟩ ∧
    reDotProductCall x y = ⟨reDotProduct x y, x, y, x, x, x⟩ ∧
    cDotProductCall x y = ⟨cDotProduct x y, x, y, x, x, x⟩ := by
  refine ⟨?_, ?_, ?_, ?_⟩
  · exact ReduceOut.ext rfl
      (reduceCuda_X_frame Norm1 false false false false x 0 x x x x)
      (reduceCuda_Y_frame Norm1 false false false false x 0 x x x x)
      (reduceCuda_Z_frame Norm1 false false false false x 0 x x x x)
      (reduceCuda_W_frame Norm1 false false false false x 0 x x x x)
      (reduceCuda_V_frame Norm1 false false false false x 0 x x x x)
  · exact ReduceOut.ext rfl
      (reduceCuda_X_frame Norm2 false false false false x 0 x x x x)
      (reduceCuda_Y_frame Norm2 false false false false x 0 x x x x)
      (reduceCuda_Z_frame Norm2 false false false false x 0 x x x x)
      (reduceCuda_W_frame Norm2 false false false false x 0 x x x x)
      (reduceCuda_V_frame Norm2 false false false false x 0 x x x x)
  · exact ReduceOut.ext rfl
      (reduceCuda_X_frame Dot false false false false x 0 y x x x)
      (reduceCuda_Y_frame Dot false false false false x 0 y x x x)
      (reduceCuda_Z_frame Dot false false false false x 0 y x x x)
      (reduceCuda_W_frame Dot false false false false x 0 y x x x)
      (reduceCuda_V_frame Dot false false false false x 0 y x x x)
  · exact ReduceOut.ext rfl
      (reduceCuda_X_frame Cdot false false false false x (0, 0) y x x x)
      (reduceCuda_Y_frame Cdot false false false false x (0, 0) y x x x)
      (reduceCuda_Z_frame Cdot false false false false x (0, 0) y x x x)
      (reduceCuda_W_frame Cdot false false false false x (0, 0) y x x x)
      (reduceCuda_V_frame Cdot false false false false x (0, 0) y x x x)

/-- C2: after `axpbyzNorm(a, x, b, y, z)` the `z` slot holds the
independent elementwise compute of `a*x + b*y`, the `x` and `y`
slots (and the `x`-aliased `w`, `v` slots) are unchanged, and the
returned scalar is `norm2` of the resulting `z`, computed separately
by the `norm2` entry point. -/
theorem axpbyzNorm_spec (a : ℚ) (x : List double2) (b : ℚ) (y z : List double2)
    (hxy : x.length = y.length) (hyz : y.length = z.length) :
    axpbyzNorm a x b y z
      = ⟨norm2 (axpbyzElemwise a b x y), x, y, axpbyzElemwise a b x y, x, x⟩ := by
  have h := axpbyz_Z_sum a b x y z 0 hxy hyz
  refine ReduceOut.ext ?_
    (reduceCuda_X_frame (axpbyzNorm2 a b) false true false false x 0 y z x x)
    (reduceCuda_Y_frame (axpbyzNorm2 a b) false true false false x 0 y z x x)
    h.1
    (reduceCuda_W_frame (axpbyzNorm2 a b) false false true false x 0 y z x x)
    (reduceCuda_V_frame (axpbyzNorm2 a b) false false true false x 0 y z x x)
  exact h.2.trans (norm2_sum_foldl (axpbyzElemwise a b x y) 0).symm

/-- Witness for C2 at `a = 2, x = [(1,0)], b = 3, y = [(0,1)],
z = [(9,9)]`. -/
theorem axpbyzNorm_spec_witness :
    ([((1 : ℚ), (0 : ℚ))] : List double2).length
        = ([((0 : ℚ), (1 : ℚ))] : List double2).length ∧
    ([((0 : ℚ), (1 : ℚ))] : List double2).length
        = ([((9 : ℚ), (9 : ℚ))] : List double2).length ∧
    axpbyzNorm 2 [((1 : ℚ), (0 : ℚ))] 3 [((0 : ℚ), (1 : ℚ))] [((9 : ℚ), (9 : ℚ))]
      = ⟨norm2 (axpbyzElemwise 2 3 [((1 : ℚ), (0 : ℚ))] [((0 : ℚ), (1 : ℚ))]),
         [((1 : ℚ), (0 : ℚ))], [((0 : ℚ), (1 : ℚ))],
         axpbyzElemwise 2 3 [((1 : ℚ), (0 : ℚ))] [((0 : ℚ), (1 : ℚ))],
         [((1 : ℚ), (0 : ℚ))], [((1 : ℚ), (0 : ℚ))]⟩ :=
  ⟨rfl, rfl,
    axpbyzNorm_spec 2 [((1 : ℚ), (0 : ℚ))] 3 [((0 : ℚ), (1 : ℚ))]
      [((9 : ℚ), (9 : ℚ))] rfl rfl⟩

/-- C7: `quadrupleCGReduction(x, y, z)` returns
`{norm2(x), norm2(y), dot(y, z), norm2(w)}`, where the `w` operand
slot is bound to `x` at the dispatch site — so the fourth component
equals `norm2(x)`. -/
theorem quadrupleCGReduction_spec (x y z : List double2)
    (hxy : x.length = y.length) (hyz : y.length = z.length) :
    quadrupleCGReduction x y z
      = ⟨norm2 x, norm2 y, reDotProduct y z, norm2 x⟩ := by
  have h : quadrupleCGReduction x y z
      = ⟨x.foldl norm2_ 0, y.foldl norm2_ 0,
         (y.zip z).foldl (fun s p => dot_ s p.1 p.2) 0, x.foldl norm2_ 0⟩ :=
    quad_sum_foldl x y z 0 0 0 0 hxy hyz
  rw [h]
  simp only [double4.mk.injEq]
  exact ⟨(norm2_sum_foldl x 0).symm, (norm2_sum_foldl y 0).symm,
    (dot_sum_foldl y z 0).symm, (norm2_sum_foldl x 0).symm⟩

/-- Witness for C7 at `x = [(1,0)], y = [(2,0)], z = [(1,1)]`. -/
theorem quadrupleCGReduction_spec_witness :
    ([((1 : ℚ), (0 : ℚ))] : List double2).length
        = ([((2 : ℚ), (0 : ℚ))] : List double2).length ∧
    ([((2 : ℚ), (0 : ℚ))] : List double2).length
        = ([((1 : ℚ), (1 : ℚ))] : List double2).length ∧
    quadrupleCGReduction [((1 : ℚ), (0 : ℚ))] [((2 : ℚ), (0 : ℚ))]
        [((1 : ℚ), (1 : ℚ))]
      = ⟨norm2 [((1 : ℚ), (0 : ℚ))], norm2 [((2 : ℚ), (0 : ℚ))],
         reDotProduct [((2 : ℚ), (0 : ℚ))] [((1 : ℚ), (1 : ℚ))],
         norm2 [((1 : ℚ), (0 : ℚ))]⟩ :=
  ⟨rfl, rfl,
    quadrupleCGReduction_spec [((1 : ℚ), (0 : ℚ))] [((2 : ℚ), (0 : ℚ))]
      [((1 : ℚ), (1 : ℚ))] rfl rfl⟩

/-- C1: when the structural precondition `x.Ncolor() == 3` is
violated, `HeavyQuarkResidualNorm(x, r)` and
`xpyHeavyQuarkResidualNorm(x, y, r)` return the all-zero triple
before any reduction; the functions are total (return type
`double3`, no error channel), so the degenerate result is delivered
non-fatally. -/
theorem hq_ncolor_guard (x r y : HQField) (rest : List (HQField × HQField))
    (rest3 : List (HQField × HQField × HQField)) (h : x.ncolor ≠ 3) :
    HeavyQuarkResidualNorm x r rest = ⟨0, 0, 0⟩ ∧
    xpyHeavyQuarkResidualNorm x y r rest3 = ⟨0, 0, 0⟩ := by
  constructor <;> simp [HeavyQuarkResidualNorm, xpyHeavyQuarkResidualNorm, h]

/-- Witness for C1 at a two-color field. -/
theorem hq_ncolor_guard_witness :
    (⟨2, [[((1 : ℚ), (0 : ℚ))]]⟩ : HQField).ncolor ≠ 3 ∧
    HeavyQuarkResidualNorm ⟨2, [[((1 : ℚ), (0 : ℚ))]]⟩
        ⟨2, [[((2 : ℚ), (0 : ℚ))]]⟩ [] = ⟨0, 0, 0⟩ ∧
    xpyHeavyQuarkResidualNorm ⟨2, [[((1 : ℚ), (0 : ℚ))]]⟩
        ⟨2, [[((1 : ℚ), (0 : ℚ))]]⟩ ⟨2, [[((2 : ℚ), (0 : ℚ))]]⟩ [] = ⟨0, 0, 0⟩ := by
  have h := hq_ncolor_guard ⟨2, [[((1 : ℚ), (0 : ℚ))]]⟩ ⟨2, [[((2 : ℚ), (0 : ℚ))]]⟩
    ⟨2, [[((1 : ℚ), (0 : ℚ))]]⟩ [] [] (by decide)
  exact ⟨by decide, h.1, h.2⟩

/-- C8: in the heavy-quark family the third component is derived
only after the combine: the returned `z` equals the sum of all
processes' local ratio sums, divided by `local volume × process
count` — the division is applied to the combined sum, never to the
per-process values.  The first two components are the plain combined
sums. -/
theorem hq_combine_then_divide (x r : HQField) (rest : List (HQField × HQField))
    (x2 y2 r2 : HQField) (rest3 : List (HQField × HQField × HQField))
    (h : x.ncolor = 3) (h2 : x2.ncolor = 3) :
    HeavyQuarkResidualNorm x r rest
      = ⟨(hqLocalReduce x r).x
            + (rest.map fun p => (hqLocalReduce p.1 p.2).x).sum,
         (hqLocalReduce x r).y
            + (rest.map fun p => (hqLocalReduce p.1 p.2).y).sum,
         ((hqLocalReduce x r).z
            + (rest.map fun p => (hqLocalReduce p.1 p.2).z).sum)
           / ((x.Volume : ℚ) * ((rest.length : ℚ) + 1))⟩ ∧
    xpyHeavyQuarkResidualNorm x2 y2 r2 rest3
      = ⟨(xpyHqLocalReduce x2 y2 r2).x
            + (rest3.map fun p => (xpyHqLocalReduce p.1 p.2.1 p.2.2).x).sum,
         (xpyHqLocalReduce x2 y2 r2).y
            + (rest3.map fun p => (xpyHqLocalReduce p.1 p.2.1 p.2.2).y).sum,
         ((xpyHqLocalReduce x2 y2 r2).z
            + (rest3.map fun p => (xpyHqLocalReduce p.1 p.2.1 p.2.2).z).sum)
           / ((x2.Volume : ℚ) * ((rest3.length : ℚ) + 1))⟩ := by
  constructor
  · rw [HeavyQuarkResidualNorm]
    simp only [h, ne_eq, not_true_eq_false, if_false]
    rw [commAllreduce, d3add_foldl]
    simp only [List.map_cons, List.sum_cons, List.map_map, comm_size]
    have hc : (((rest.length + 1 : ℕ) : ℚ)) = (rest.length : ℚ) + 1 := by
      push_cast; ring
    rw [hc]
    simp only [double3.mk.injEq, Function.comp_def]
    refine ⟨by ring, by ring, by ring⟩
  · rw [xpyHeavyQuarkResidualNorm]
    simp only [h2, ne_eq, not_true_eq_false, if_false]
    rw [commAllreduce, d3add_foldl]
    simp only [List.map_cons, List.sum_cons, List.map_map, comm_size]
    have hc : (((rest3.length + 1 : ℕ) : ℚ)) = (rest3.length : ℚ) + 1 := by
      push_cast; ring
    rw [hc]
    simp only [double3.mk.injEq, Function.comp_def]
    refine ⟨by ring, by ring, by ring⟩

/-- Witness for C8 at concrete one-site three-color fields with a
single process. -/
theorem hq_combine_then_divide_witness :
    (⟨3, [[((1 : ℚ), (0 : ℚ))]]⟩ : HQField).ncolor = 3 ∧
    HeavyQuarkResidualNorm ⟨3, [[((1 : ℚ), (0 : ℚ))]]⟩
        ⟨3, [[((2 : ℚ), (0 : ℚ))]]⟩ []
      = ⟨(hqLocalReduce ⟨3, [[((1 : ℚ), (0 : ℚ))]]⟩ ⟨3, [[((2 : ℚ), (0 : ℚ))]]⟩).x
            + (([] : List (HQField × HQField)).map
                fun p => (hqLocalReduce p.1 p.2).x).sum,
         (hqLocalReduce ⟨3, [[((1 : ℚ), (0 : ℚ))]]⟩ ⟨3, [[((2 : ℚ), (0 : ℚ))]]⟩).y
            + (([] : List (HQField × HQField)).map
                fun p => (hqLocalReduce p.1 p.2).y).sum,
         ((hqLocalReduce ⟨3, [[((1 : ℚ), (0 : ℚ))]]⟩ ⟨3, [[((2 : ℚ), (0 : ℚ))]]⟩).z
            + (([] : List (HQField × HQField)).map
                fun p => (hqLocalReduce p.1 p.2).z).sum)
           / (((⟨3, [[((1 : ℚ), (0 : ℚ))]]⟩ : HQField).Volume : ℚ)
                * ((([] : List (HQField × HQField)).length : ℚ) + 1))⟩ ∧
    xpyHeavyQuarkResidualNorm ⟨3, [[((1 : ℚ), (0 : ℚ))]]⟩
        ⟨3, [[((0 : ℚ), (1 : ℚ))]]⟩ ⟨3, [[((2 : ℚ), (0 : ℚ))]]⟩ []
      = ⟨(xpyHqLocalReduce ⟨3, [[((1 : ℚ), (0 : ℚ))]]⟩ ⟨3, [[((0 : ℚ), (1 : ℚ))]]⟩
              ⟨3, [[((2 : ℚ), (0 : ℚ))]]⟩).x
            + (([] : List (HQField × HQField × HQField)).map
                fun p => (xpyHqLocalReduce p.1 p.2.1 p.2.2).x).sum,
         (xpyHqLocalReduce ⟨3, [[((1 : ℚ), (0 : ℚ))]]⟩ ⟨3, [[((0 : ℚ), (1 : ℚ))]]⟩
              ⟨3, [[((2 : ℚ), (0 : ℚ))]]⟩).y
            + (([] : List (HQField × HQField × HQField)).map
                fun p => (xpyHqLocalReduce p.1 p.2.1 p.2.2).y).sum,
         ((xpyHqLocalReduce ⟨3, [[((1 : ℚ), (0 : ℚ))]]⟩ ⟨3, [[((0 : ℚ), (1 : ℚ))]]⟩
              ⟨3, [[((2 : ℚ), (0 : ℚ))]]⟩).z
            + (([] : List (HQField × HQField × HQField)).map
                fun p => (xpyHqLocalReduce p.1 p.2.1 p.2.2).z).sum)
           / (((⟨3, [[((1 : ℚ), (0 : ℚ))]]⟩ : HQField).Volume : ℚ)
                * ((([] : List (HQField × HQField × HQField)).length : ℚ) + 1))⟩ := by
  have h := hq_combine_then_divide ⟨3, [[((1 : ℚ), (0 : ℚ))]]⟩
    ⟨3, [[((2 : ℚ), (0 : ℚ))]]⟩ [] ⟨3, [[((1 : ℚ), (0 : ℚ))]]⟩
    ⟨3, [[((0 : ℚ), (1 : ℚ))]]⟩ ⟨3, [[((2 : ℚ), (0 : ℚ))]]⟩ [] rfl rfl
  exact ⟨rfl, h.1, h.2⟩

/-- C10: the ratio folded in by `post()` is guarded: the auxiliary
solution-norm accumulator is a sum of squares, hence nonnegative;
when it is zero the contribution to the third component is the
constant `1`, and whenever it is nonzero it is strictly positive, so
the division in `post()` never sees a zero divisor. -/
theorem hq_post_guard (sum : double3) (xs ys zs : List double2) :
    0 ≤ (hqAux xs ys).1 ∧
    ((hqAux xs ys).1 = 0 →
      (HeavyQuarkResidualNormSite sum xs ys).z = sum.z + 1) ∧
    ((hqAux xs ys).1 ≠ 0 → 0 < (hqAux xs ys).1 ∧
      (HeavyQuarkResidualNormSite sum xs ys).z
        = sum.z + (hqAux xs ys).2 / (hqAux xs ys).1) ∧
    0 ≤ (xpyHqAux xs ys zs).1 ∧
    ((xpyHqAux xs ys zs).1 = 0 →
      (xpyHeavyQuarkResidualNormSite sum xs ys zs).z = sum.z + 1) ∧
    ((xpyHqAux xs ys zs).1 ≠ 0 → 0 < (xpyHqAux xs ys zs).1 ∧
      (xpyHeavyQuarkResidualNormSite sum xs ys zs).z
        = sum.z + (xpyHqAux xs ys zs).2 / (xpyHqAux xs ys zs).1) := by
  have hn1 : 0 ≤ (hqAux xs ys).1 := by
    have := le_foldl_norm2_fst (fun p : double2 × double2 => p.1)
      (fun p : double2 × double2 => p.2) (xs.zip ys) (0, 0)
    simpa [hqAux] using this
  have hn2 : 0 ≤ (xpyHqAux xs ys zs).1 := by
    have := le_foldl_norm2_fst
      (fun p : (double2 × double2) × double2 => d2add p.1.1 p.1.2)
      (fun p : (double2 × double2) × double2 => p.2) ((xs.zip ys).zip zs) (0, 0)
    simpa [xpyHqAux] using this
  refine ⟨hn1, ?_, ?_, hn2, ?_, ?_⟩
  · intro h0
    simp [HeavyQuarkResidualNormSite, hqPost, h0]
  · intro hne
    have hpos : 0 < (hqAux xs ys).1 := lt_of_le_of_ne hn1 (Ne.symm hne)
    exact ⟨hpos, by simp [HeavyQuarkResidualNormSite, hqPost, hpos]⟩
  · intro h0
    simp [xpyHeavyQuarkResidualNormSite, hqPost, h0]
  · intro hne
    have hpos : 0 < (xpyHqAux xs ys zs).1 := lt_of_le_of_ne hn2 (Ne.symm hne)
    exact ⟨hpos, by simp [xpyHeavyQuarkResidualNormSite, hqPost, hpos]⟩

/-- Counterexample to C5 as stated: calling `initReduce` a second
time while the buffers are live is not a fatal abort.  From the
pristine state, the first init yields a live state (non-null device
and host handles), and a second init on that live state again
returns `Except.ok` — with the same state — rather than an error. -/
theorem initReduce_double_init_not_fatal :
    initReduce false false initialReduceState
        = Except.ok ⟨2, some 0, some 1, some 0, true, false⟩ ∧
    (⟨2, some 0, some 1, some 0, true, false⟩ : ReduceState).d_reduce.isSome
        = true ∧
    initReduce false false (⟨2, some 0, some 1, some 0, true, false⟩ : ReduceState)
        = Except.ok ⟨2, some 0, some 1, some 0, true, false⟩ :=
  ⟨rfl, rfl, rfl⟩

/-- C5 (amended): a second `initReduce` while the buffers are live
completes without error: both allocations are skipped, so the
device, host and alias handles are unchanged; only the completion
event is re-created and the fast-reduce toggle possibly latched on. -/
theorem initReduce_live_not_fatal (canMap fastEnv : Bool) (s : ReduceState)
    (hd : s.d_reduce.isSome = true) (hh : s.h_reduce.isSome = true) :
    initReduce canMap fastEnv s
      = Except.ok { s with eventLive := true, fast := s.fast || fastEnv } := by
  rw [initReduce]
  simp [Option.isNone_iff_eq_none, Option.isSome_iff_ne_none.mp hd,
    Option.isSome_iff_ne_none.mp hh]

/-- Witness for the amended C5 at a concrete live state. -/
theorem initReduce_live_not_fatal_witness :
    (⟨2, some 0, some 1, some 0, true, false⟩ : ReduceState).d_reduce.isSome
        = true ∧
    (⟨2, some 0, some 1, some 0, true, false⟩ : ReduceState).h_reduce.isSome
        = true ∧
    initReduce true true (⟨2, some 0, some 1, some 0, true, false⟩ : ReduceState)
      = Except.ok { (⟨2, some 0, some 1, some 0, true, false⟩ : ReduceState) with
          eventLive := true,
          fast := (⟨2, some 0, some 1, some 0, true, false⟩ : ReduceState).fast
                    || true } :=
  ⟨rfl, rfl,
    initReduce_live_not_fatal true true ⟨2, some 0, some 1, some 0, true, false⟩
      rfl rfl⟩

/-- C6: `endReduce` nulls the device, host and device-alias handles
(and destroys the event); running it on an already-torn-down state
changes nothing (the frees are skipped on null handles), and the
restart round-trip `init(); teardown(); init(); teardown();`
completes without error from the pristine state. -/
theorem endReduce_teardown_restart (s : ReduceState) (canMap fastEnv : Bool) :
    (endReduce s).d_reduce = none ∧
    (endReduce s).h_reduce = none ∧
    (endReduce s).hd_reduce = none ∧
    (endReduce s).eventLive = false ∧
    endReduce (endReduce s) = endReduce s ∧
    exceptIsOk (restartSeq canMap fastEnv) = true := by
  refine ⟨?_, ?_, ?_, ?_, ?_, ?_⟩
  · rcases hs : s.d_reduce with _ | v <;> rcases hs2 : s.h_reduce with _ | w <;>
      simp [endReduce, hs, hs2]
  · rcases hs : s.d_reduce with _ | v <;> rcases hs2 : s.h_reduce with _ | w <;>
      simp [endReduce, hs, hs2]
  · simp [endReduce]
  · simp [endReduce]
  · rcases hs : s.d_reduce with _ | v <;> rcases hs2 : s.h_reduce with _ | w <;>
      simp [endReduce, hs, hs2]
  · cases canMap <;> cases fastEnv <;> rfl

end QudaBlas
